import Mathlib

/-!
Verification of the pagination core of the freshservice_mcp server
(`src/freshservice_mcp/server.py`): the `Link`-header pagination parser
`parse_link_header` and the paged fetch aggregator `list_service_items`,
together with the single-call operations `get_tickets`, `filter_agents`
and `get_ticket_fields` that the claims reference.

Modelling conventions:
* Python strings are `String` / `List Char`; the two regular expressions
  used by the source (`<(.+?)>;\s*rel="(.+?)"` and `page=(\d+)`) are
  embedded as explicit backtracking matchers with Python `re.search`
  semantics (leftmost match position, lazy `+?` groups, `.` not matching
  a newline, greedy `\d+`).
* The Python dict built by `parse_link_header` (initialised with keys
  `next` and `prev`, then updated by `pagination[rel] = page_num`) is an
  insertion-ordered association list with in-place overwrite.
* The HTTP client is a mocked transport: a function from the requested
  page number to a response.  A response is either a transport-level
  exception or a structured response carrying a status code, a JSON body
  parse result and the `Link` header value.  `raise_for_status` raises
  exactly when the status is not 2xx; the exception text is modelled as a
  function of the status code.
* The `while True:` loops of the aggregators are given explicit fuel;
  `none` means the loop was still running when fuel ran out (the Python
  loop has no bound at all).  Every model additionally reports the list
  of page numbers it requested from the transport, in order, so that
  "zero network calls" and "never refetches a page" are statable.
* An operation that installs no exception handler is modelled with
  `Except`: `Except.error` is an exception crossing the tool boundary.
-/

/-- Python `link_header.split(',')` on character lists:
splitting on `','` keeps empty pieces and always returns at least one piece. -/
def splitComma : List Char → List (List Char)
  | [] => [[]]
  | c :: rest =>
    if c = ',' then [] :: splitComma rest
    else
      match splitComma rest with
      | [] => [[c]]
      | h :: t => (c :: h) :: t

/-- Python dict assignment `d[k] = v`: overwrite in place if the key is
present, otherwise append at the end (insertion order preserved). -/
def dictSet (d : List (String × Option Nat)) (k : String) (v : Option Nat) :
    List (String × Option Nat) :=
  match d with
  | [] => [(k, v)]
  | (k', v') :: rest => if k' = k then (k, v) :: rest else (k', v') :: dictSet rest k v

/-- Python `d.get(k)` where both an absent key and a stored `None` give
`None` (which is how the source consumes the parser's output). -/
def pagGet (d : List (String × Option Nat)) (k : String) : Option Nat :=
  match d with
  | [] => none
  | (k', v') :: rest => if k' = k then v' else pagGet rest k

/-- ASCII whitespace, as matched by `\s` on the ASCII inputs at issue. -/
def isPySpace (c : Char) : Bool :=
  c = ' ' ∨ c = '\t' ∨ c = '\n' ∨ c = '\r' ∨ c = '\x0b' ∨ c = '\x0c'

/-- The tail of the pattern `<(.+?)>;\s*rel="(.+?)"` after the second
group has started: lazily extend the group one character at a time (never
across a newline) and close at the first following `"`. -/
def tryG2 (acc : List Char) : List Char → Option (List Char)
  | [] => none
  | c :: rest =>
    if c = '\n' then none
    else
      match rest with
      | '"' :: _ => some (acc ++ [c])
      | _ => tryG2 (acc ++ [c]) rest

/-- After the first group closed with `>;`: greedily skip `\s*`, require
the literal `rel="`, then match the second lazy group. -/
def afterG1 (t : List Char) : Option (List Char) :=
  match t.dropWhile isPySpace with
  | 'r' :: 'e' :: 'l' :: '=' :: '"' :: u => tryG2 [] u
  | _ => none

/-- The first lazy group of `<(.+?)>;\s*rel="(.+?)"`: extend the group one
character at a time (never across a newline); whenever the next two
characters are `>;`, first try to finish the whole pattern there and only
on failure keep extending (Python lazy-quantifier backtracking). -/
def tryG1 (acc : List Char) : List Char → Option (List Char × List Char)
  | [] => none
  | c :: rest =>
    if c = '\n' then none
    else
      match rest with
      | '>' :: ';' :: t =>
        match afterG1 t with
        | some g2 => some (acc ++ [c], g2)
        | none => tryG1 (acc ++ [c]) rest
      | _ => tryG1 (acc ++ [c]) rest

/-- Model of `re.search(r'<(.+?)>;\s*rel="(.+?)"', link)`: scan left to right for a
`<` at which the whole pattern matches; return the two groups. -/
def searchLink : List Char → Option (List Char × List Char)
  | [] => none
  | c :: rest =>
    if c = '<' then
      match tryG1 [] rest with
      | some r => some r
      | none => searchLink rest
    else searchLink rest

/-- Value of a digit run, as Python `int` of the matched digits. -/
def digitsVal (ds : List Char) : Nat :=
  ds.foldl (fun n c => n * 10 + (c.toNat - '0'.toNat)) 0

/-- Attempt of the pattern `page=(\d+)` anchored at the start of the
string: the literal `page=` followed by at least one digit, with the
greedy `\d+` taking the maximal digit run. -/
def pageAt : List Char → Option Nat
  | 'p' :: 'a' :: 'g' :: 'e' :: '=' :: d :: t =>
    if d.isDigit then some (digitsVal (d :: t.takeWhile Char.isDigit)) else none
  | _ => none

/-- Model of `re.search(r'page=(\d+)', url)`: try the anchored pattern at each
position left to right, advancing one character on failure. -/
def pageSearch : List Char → Option Nat
  | [] => none
  | c :: rest =>
    match pageAt (c :: rest) with
    | some n => some n
    | none => pageSearch rest

/-- The dict `parse_link_header` starts from. -/
def initPag : List (String × Option Nat) := [("next", none), ("prev", none)]

/-- One iteration of the source's `for link in links:` loop. -/
def linkStep (pag : List (String × Option Nat)) (link : List Char) :
    List (String × Option Nat) :=
  match searchLink link with
  | none => pag
  | some (url, rel) =>
    match pageSearch url with
    | none => pag
    | some n => dictSet pag (String.mk rel) (some n)

/-- Body of `parse_link_header` on a character list: early return on the empty
(falsy) header, otherwise split on `,` and fold the per-entry step. -/
def parseLinkCore (cs : List Char) : List (String × Option Nat) :=
  if cs = [] then initPag
  else (splitComma cs).foldl linkStep initPag

/-- Function `parse_link_header` from `server.py` lines 100-129. -/
def parse_link_header (s : String) : List (String × Option Nat) :=
  parseLinkCore s.toList

/-- One mocked upstream response, with payload type `α`:
either a transport-level exception raised by `client.get`, or a response
carrying the HTTP status, the outcome of `response.json()` (an `error`
means the decode raises), and the value of the `Link` response header
(`""` when the header is absent, matching `headers.get("Link", "")`,
and also matching the missing-header case of `headers.get("link")`
since `parse_link_header` treats `None` and `""` alike as falsy). -/
inductive Resp (α : Type) where
  | response (status : Nat) (body : Except String α) (link : String)
  | transportError (msg : String)

/-- Predicate for `httpx.Response.raise_for_status`: it raises unless the status is 2xx. -/
def statusOk (st : Nat) : Bool := 200 ≤ st ∧ st ≤ 299

/-- The text of `str(e)` for an `HTTPStatusError`, modelled as a function
of the status code only (the real text names the status and URL; it never
contains previously fetched payloads). -/
def httpErrText (st : Nat) : String := "status " ++ toString st

/-- Return value of `list_service_items`: the success dict
`{"success": True, "items": ..., "pagination": {"starting_page": ...,
"per_page": ..., "last_fetched_page": ...}}` — note it carries no
next-page marker — or the error dict `{"error": ...}`. -/
inductive LsiResult (α : Type) where
  | ok (items : List α) (startingPage perPage lastFetchedPage : Int)
  | error (msg : String)
deriving DecidableEq

/-- The `while True:` loop of `list_service_items` (`server.py` lines
400-424), with explicit fuel.  Returns the outcome (`none` = fuel ran out
while the Python loop would still be running) paired with the list of
page numbers requested from the transport, in order.  The loop exits
successfully when the parsed `next` marker is falsy (`None` or `0`),
otherwise assigns `current_page = pagination_info["next"]` and repeats. -/
def lsiLoop {α : Type} (server : Int → Resp α) (startPage perPage : Int) :
    Nat → Int → List α → Option (LsiResult α) × List Int
  | 0, _, _ => (none, [])
  | fuel + 1, current, acc =>
    match server current with
    | .transportError e => (some (.error ("Unexpected error: " ++ e)), [current])
    | .response st body link =>
      if statusOk st then
        match body with
        | .error e => (some (.error ("Unexpected error: " ++ e)), [current])
        | .ok data =>
          let acc' := acc ++ [data]
          match pagGet (parse_link_header link) "next" with
          | none => (some (.ok acc' startPage perPage current), [current])
          | some 0 => (some (.ok acc' startPage perPage current), [current])
          | some (n + 1) =>
            let r := lsiLoop server startPage perPage fuel (Int.ofNat (n + 1)) acc'
            (r.1, current :: r.2)
      else (some (.error ("HTTP error occurred: " ++ httpErrText st)), [current])

/-- Operation `list_service_items` from `server.py` lines 387-434: validate `page`
and `per_page` before any network activity, then run the aggregation
loop starting at `page` with an empty accumulator. -/
def list_service_items {α : Type} (server : Int → Resp α)
    (page perPage : Int) (fuel : Nat) : Option (LsiResult α) × List Int :=
  if page < 1 then (some (.error "Page number must be greater than 0"), [])
  else if perPage < 1 ∨ perPage > 100 then
    (some (.error "Page size must be between 1 and 100"), [])
  else lsiLoop server page perPage fuel page []

/-- Return value of `get_tickets`: the success dict with the tickets and
a pagination block `{current_page, next_page, prev_page, per_page}`, or
the error dict `{"error": ...}`. -/
inductive GtResult (α : Type) where
  | ok (tickets : α) (currentPage : Int) (nextPage prevPage : Option Nat) (perPage : Int)
  | error (msg : String)
deriving DecidableEq

/-- Operation `get_tickets` from `server.py` lines 142-184: validate, then one GET
with `(page, per_page)`; both `httpx.HTTPStatusError` and generic
exceptions are caught and converted to an error dict.  The second
component counts the network calls issued. -/
def get_tickets {α : Type} (server : Int → Int → Resp α)
    (page perPage : Int) : GtResult α × Nat :=
  if page < 1 then (.error "Page number must be greater than 0", 0)
  else if perPage < 1 ∨ perPage > 100 then
    (.error "Page size must be between 1 and 100", 0)
  else
    match server page perPage with
    | .transportError e => (.error ("An unexpected error occurred: " ++ e), 1)
    | .response st body link =>
      if statusOk st then
        match body with
        | .error e => (.error ("An unexpected error occurred: " ++ e), 1)
        | .ok tickets =>
          let pag := parse_link_header link
          (.ok tickets page (pagGet pag "next") (pagGet pag "prev") perPage, 1)
      else (.error ("Failed to fetch tickets: " ++ httpErrText st), 1)

/-- The `while True:` loop of `filter_agents` (`server.py` lines
1246-1261).  No handler is installed anywhere in the function, so every
raised exception propagates: `Except.error` is an exception crossing the
tool boundary, `Except.ok` the normal return of the accumulated agents. -/
def faLoop {α : Type} (server : Int → Resp (List α)) :
    Nat → Int → List α → Option (Except String (List α))
  | 0, _, _ => none
  | fuel + 1, page, acc =>
    match server page with
    | .transportError e => some (.error ("TransportError: " ++ e))
    | .response st body link =>
      if statusOk st then
        match body with
        | .error e => some (.error ("JSONDecodeError: " ++ e))
        | .ok agents =>
          let acc' := acc ++ agents
          match pagGet (parse_link_header link) "next" with
          | none => some (.ok acc')
          | some 0 => some (.ok acc')
          | some (n + 1) => faLoop server fuel (Int.ofNat (n + 1)) acc'
      else some (.error ("HTTPStatusError: " ++ httpErrText st))

/-- Operation `filter_agents` from `server.py` lines 1231-1262: pages from 1,
extends the accumulator with each page's `agents` list, follows the
parsed `next` marker, and calls `raise_for_status` outside any
`try`/`except`. -/
def filter_agents {α : Type} (server : Int → Resp (List α)) (fuel : Nat) :
    Option (Except String (List α)) :=
  faLoop server fuel 1 []

/-- Operation `get_ticket_fields` from `server.py` lines 132-139: a single GET with
no status check and no handler; the decoded JSON body is returned as-is,
while a transport failure or a JSON decode failure raises
(`Except.error` = exception crossing the tool boundary). -/
def get_ticket_fields {α : Type} (server : Resp α) : Except String α :=
  match server with
  | .transportError e => .error ("TransportError: " ++ e)
  | .response _ body _ =>
    match body with
    | .ok b => .ok b
    | .error e => .error ("JSONDecodeError: " ++ e)

/-- One successful, advancing step of the aggregation chain: the mocked
upstream answers page `ps i` with a 2xx response whose body decodes to
`bs i` and whose parsed `Link` header advertises the truthy next page
`ps (i+1)`. -/
def successAdvance {α : Type} (server : Int → Resp α) (ps : Nat → Int)
    (bs : Nat → α) (i : Nat) : Prop :=
  ∃ st link n, server (ps i) = .response st (.ok (bs i)) link ∧
    statusOk st = true ∧
    pagGet (parse_link_header link) "next" = some (n + 1) ∧
    ps (i + 1) = Int.ofNat (n + 1)

/-- The relation along consecutive requested pages: `q` was requested
right after `p` because the response served for `p` was a 2xx whose
parsed `Link` header advertised `q` as the (truthy) `next` page. -/
def nextAdvance {α : Type} (server : Int → Resp α) (p q : Int) : Prop :=
  ∃ st b link n, server p = .response st (Except.ok b) link ∧
    statusOk st = true ∧
    pagGet (parse_link_header link) "next" = some (n + 1) ∧
    q = Int.ofNat (n + 1)

/-- The marker a well-formed header entry with URL `u` contributes: a URL
containing a comma is torn apart by the `split(',')` and never matches,
otherwise the `page=` search on the URL decides. -/
def optMark (u : List Char) : Option Nat :=
  if ',' ∈ u then none else pageSearch u

/-- Conditional dict update: record a marker under `r` when one was
extracted, otherwise leave the dict unchanged. -/
def updOpt (pag : List (String × Option Nat)) (r : String) (o : Option Nat) :
    List (String × Option Nat) :=
  match o with
  | none => pag
  | some n => dictSet pag r (some n)

/-- A single `Link` header entry `<u>; rel="r"`. -/
def linkEntry (u : List Char) (r : String) : List Char :=
  '<' :: u ++ '>' :: ';' :: ' ' :: 'r' :: 'e' :: 'l' :: '=' :: '"' :: r.toList ++ ['"']

/-- A header of two entries separated by a comma and a space:
`<u1>; rel="r1", <u2>; rel="r2"`. -/
def twoEntryHeader (u1 : List Char) (r1 : String) (u2 : List Char) (r2 : String) : String :=
  String.mk (linkEntry u1 r1 ++ ',' :: ' ' :: linkEntry u2 r2)

/-! ## Helper lemmas on the dict model -/

lemma dictSet_shape (a b : Option Nat) (rest : List (String × Option Nat))
    (k : String) (v : Option Nat) :
    ∃ a' b' rest', dictSet (("next", a) :: ("prev", b) :: rest) k v =
      ("next", a') :: ("prev", b') :: rest' := by
  by_cases h1 : ("next" : String) = k
  · subst h1
    exact ⟨v, b, rest, by simp [dictSet]⟩
  · by_cases h2 : ("prev" : String) = k
    · subst h2
      exact ⟨a, v, rest, by simp [dictSet, h1]⟩
    · exact ⟨a, b, dictSet rest k v, by simp [dictSet, h1, h2]⟩

lemma linkStep_shape (a b : Option Nat) (rest : List (String × Option Nat))
    (p : List Char) :
    ∃ a' b' rest', linkStep (("next", a) :: ("prev", b) :: rest) p =
      ("next", a') :: ("prev", b') :: rest' := by
  rcases hs : searchLink p with _ | ⟨u, r⟩
  · exact ⟨a, b, rest, by simp [linkStep, hs]⟩
  · rcases hp : pageSearch u with _ | n
    · exact ⟨a, b, rest, by simp [linkStep, hs, hp]⟩
    · obtain ⟨a', b', r', h⟩ := dictSet_shape a b rest (String.mk r) (some n)
      exact ⟨a', b', r', by simp [linkStep, hs, hp, h]⟩

lemma foldl_linkStep_shape (ls : List (List Char)) :
    ∀ (a b : Option Nat) (rest : List (String × Option Nat)),
      ∃ a' b' rest', ls.foldl linkStep (("next", a) :: ("prev", b) :: rest) =
        ("next", a') :: ("prev", b') :: rest' := by
  induction ls with
  | nil => exact fun a b rest => ⟨a, b, rest, rfl⟩
  | cons p ps ih =>
    intro a b rest
    obtain ⟨a1, b1, r1, h1⟩ := linkStep_shape a b rest p
    obtain ⟨a2, b2, r2, h2⟩ := ih a1 b1 r1
    exact ⟨a2, b2, r2, by simp only [List.foldl_cons, h1, h2]⟩

lemma parse_link_header_shape (s : String) :
    ∃ a b rest, parse_link_header s = ("next", a) :: ("prev", b) :: rest := by
  unfold parse_link_header parseLinkCore
  by_cases h : s.toList = []
  · exact ⟨none, none, [], by simp only [h, if_pos]; rfl⟩
  · rw [if_neg h]
    exact foldl_linkStep_shape _ none none []

/-! ## Claim theorems: parser behaviour -/

/-- C8: `parse_link_header` is total (the model is a total function by
construction) and tolerant: the empty header yields both markers absent,
a malformed entry (here `garbage`) is silently skipped so that
`parse("garbage, <http://x?page=3>; rel=\"next\"")` yields `next = 3`
and `prev` absent, and an entry whose URL has no `page=` query parameter
contributes no marker for its relation. -/
theorem parse_link_header_tolerant :
    parse_link_header "" = [("next", none), ("prev", none)] ∧
    parse_link_header "garbage, <http://x?page=3>; rel=\"next\"" =
      [("next", some 3), ("prev", none)] ∧
    parse_link_header "<http://x>; rel=\"next\"" =
      [("next", none), ("prev", none)] :=
  ⟨by decide, by decide, by decide⟩

/-- C10: the `page=` search is a plain substring match, so in a URL whose
query string places `per_page=30` before `page=2` the first match is the
`page=30` tail of `per_page=30`: the extracted `next` marker is 30, not 2. -/
theorem parse_link_header_per_page_shadowing :
    pagGet (parse_link_header "<https://x?per_page=30&page=2>; rel=\"next\"") "next"
        = some 30 ∧
    pagGet (parse_link_header "<https://x?per_page=30&page=2>; rel=\"next\"") "next"
        ≠ some 2 :=
  ⟨by decide, by decide⟩

/-- C7 counterexample: the claim says no marker is ever 0, but an entry
whose URL contains `page=0` yields the marker 0 (`int("0")` is recorded
unchecked). -/
theorem parse_link_header_zero_marker :
    pagGet (parse_link_header "<http://a?page=0>; rel=\"next\"") "next" = some 0 :=
  by decide

/-- C7 amended: each marker produced by `parse_link_header` is either
absent or a nonnegative integer read off the digits after `page=`;
positivity is not guaranteed: `page=0` yields the marker 0 (while
`page=7` yields 7). -/
theorem parse_link_header_markers_nonneg :
    parse_link_header "<http://x?page=0>; rel=\"next\", <http://y?page=7>; rel=\"prev\"" =
      [("next", some 0), ("prev", some 7)] :=
  by decide

/-- C5 counterexample: an entry with the unrecognized relation name
`last` is not ignored: `pagination[rel] = page_num` records it under a
fresh key, so the returned dict has three keys, not exactly the two
markers `next` and `prev`. -/
theorem parse_link_header_extra_rel_key :
    parse_link_header "<http://x?page=5>; rel=\"last\"" =
      [("next", none), ("prev", none), ("last", some 5)] :=
  by decide

/-- C5 amended: `parse_link_header` records a page number under whatever
relation name the entry matched, so an unrecognized relation name (e.g.
`last`) appears as an extra key instead of being ignored; the markers
`next` and `prev` are nevertheless always present as the first two
entries of the result, and an entry with an unrecognized relation name
leaves them both unchanged. -/
theorem parse_link_header_next_prev_present :
    (∀ s : String, ∃ a b rest,
        parse_link_header s = ("next", a) :: ("prev", b) :: rest) ∧
    pagGet (parse_link_header "<http://x?page=5>; rel=\"last\"") "next" = none ∧
    pagGet (parse_link_header "<http://x?page=5>; rel=\"last\"") "prev" = none :=
  ⟨parse_link_header_shape, by decide, by decide⟩

/-! ## Claim theorems: validation and error propagation -/

/-- C2: for every transport and every invalid pair (`page < 1` or
`per_page` outside `[1,100]`), both `list_service_items` and
`get_tickets` return a validation-error dict and issue zero network
calls: the request trace is empty / the call count is 0, because the
precondition check precedes any use of the transport. -/
theorem paged_validation_no_network {α : Type} (s1 : Int → Resp α)
    (s2 : Int → Int → Resp α) (page perPage : Int) (fuel : Nat)
    (h : page < 1 ∨ perPage < 1 ∨ perPage > 100) :
    (∃ msg, list_service_items s1 page perPage fuel = (some (.error msg), [])) ∧
    (∃ msg, get_tickets s2 page perPage = (.error msg, 0)) := by
  constructor
  · unfold list_service_items
    split_ifs with h1 h2
    · exact ⟨_, rfl⟩
    · exact ⟨_, rfl⟩
    · exact absurd h (by omega)
  · unfold get_tickets
    split_ifs with h1 h2
    · exact ⟨_, rfl⟩
    · exact ⟨_, rfl⟩
    · exact absurd h (by omega)

/-- Witness for C2 at `page = 0`, `per_page = 30`. -/
theorem paged_validation_no_network_witness :
    (∃ msg, list_service_items (fun _ => Resp.response 200 (Except.ok (0 : Nat)) "")
        0 30 5 = (some (.error msg), [])) ∧
    (∃ msg, get_tickets (fun _ _ => Resp.response 200 (Except.ok (0 : Nat)) "")
        0 30 = (.error msg, 0)) :=
  paged_validation_no_network _ _ 0 30 5 (Or.inl (by norm_num))

/-- C4 counterexample: not every tool returns a structured value.
`filter_agents` calls `raise_for_status` outside any `try`/`except`
(`server.py` line 1250), so a 500 on the very first page raises an
`httpx.HTTPStatusError` that crosses the tool boundary (modelled as
`Except.error`). -/
theorem filter_agents_uncaught_http_error :
    filter_agents (fun _ => Resp.response 500 (Except.ok ([] : List Nat)) "") 1
      = some (Except.error "HTTPStatusError: status 500") := rfl

/-- C4 amended: operations that install handlers (`list_service_items`,
`get_tickets`) convert every outcome into a structured return value, but
`filter_agents` and `get_ticket_fields` install none: a transport
failure or (for `filter_agents`) a non-2xx response propagates as an
exception across the tool boundary. -/
theorem uncaught_exceptions_propagate {α β : Type} (server : Int → Resp (List α))
    (r : Resp β) (fuel : Nat) (msg e2 : String)
    (hfa : (∃ e, server 1 = .transportError e ∧ msg = "TransportError: " ++ e) ∨
      (∃ st b link, server 1 = .response st b link ∧ statusOk st = false ∧
        msg = "HTTPStatusError: " ++ httpErrText st))
    (hr : r = .transportError e2) :
    filter_agents server (fuel + 1) = some (.error msg) ∧
    get_ticket_fields r = .error ("TransportError: " ++ e2) := by
  refine ⟨?_, by rw [hr]; rfl⟩
  unfold filter_agents
  rcases hfa with ⟨e, hs, rfl⟩ | ⟨st, b, link, hs, hst, rfl⟩
  · simp [faLoop, hs]
  · simp [faLoop, hs, hst]

/-- Witness for the amended C4 at a concrete failing transport. -/
theorem uncaught_exceptions_propagate_witness :
    filter_agents (fun _ => Resp.transportError "connection refused" : Int → Resp (List Nat)) 1
        = some (.error "TransportError: connection refused") ∧
    get_ticket_fields (Resp.transportError "dns failure" : Resp Nat)
        = .error ("TransportError: " ++ "dns failure") :=
  uncaught_exceptions_propagate _ _ 0 _ _
    (Or.inl ⟨"connection refused", rfl, rfl⟩) rfl

/-- C6 counterexample: the aggregator does refetch already-fetched pages
when the server's `next` marker points back at one: a server that always
advertises `next` page 1 makes `list_service_items` request page 1 over
and over (trace `[1, 1, 1]` within fuel 3). -/
theorem list_service_items_refetches_page :
    (list_service_items (fun _ => Resp.response 200 (Except.ok (7 : Nat))
      "<http://x?page=1>; rel=\"next\"") 1 30 3).2 = [1, 1, 1] := by decide

/-! ## The aggregation loop along a success chain -/

lemma range_map_shift {β : Type} (g : Nat → β) (k d : Nat) :
    (List.range (d + 1)).map (fun i => g (k + i)) =
      g k :: (List.range d).map (fun i => g (k + 1 + i)) := by
  rw [List.range_succ_eq_map, List.map_cons, List.map_map]
  refine congrArg₂ _ (by rw [Nat.add_zero]) (List.map_congr_left fun i _ => ?_)
  show g (k + (i + 1)) = g (k + 1 + i)
  congr 1
  omega

lemma range_map_last {β : Type} (g : Nat → β) (n : Nat) :
    (List.range n).map (fun i => g (0 + i)) ++ [g n] = (List.range (n + 1)).map g := by
  rw [List.range_succ, List.map_append, List.map_singleton]
  refine congrArg₂ _ (List.map_congr_left fun i _ => ?_) rfl
  rw [Nat.zero_add]

lemma lsiLoop_steps {α : Type} (server : Int → Resp α) (sp pp : Int)
    (ps : Nat → Int) (bs : Nat → α) (j : Nat)
    (hchain : ∀ i, i < j → successAdvance server ps bs i) :
    ∀ d k fuel (acc : List α), k + d = j → d ≤ fuel →
      lsiLoop server sp pp fuel (ps k) acc =
        ((lsiLoop server sp pp (fuel - d) (ps j)
            (acc ++ (List.range d).map fun i => bs (k + i))).1,
         ((List.range d).map fun i => ps (k + i)) ++
           (lsiLoop server sp pp (fuel - d) (ps j)
             (acc ++ (List.range d).map fun i => bs (k + i))).2) := by
  intro d
  induction d with
  | zero =>
    intro k fuel acc hk _
    have : k = j := by omega
    subst this
    simp
  | succ d ih =>
    intro k fuel acc hk hf
    obtain ⟨fuel', rfl⟩ : ∃ f, fuel = f + 1 := ⟨fuel - 1, by omega⟩
    obtain ⟨st, link, n, hs, hok, hnext, hps⟩ := hchain k (by omega)
    rw [lsiLoop]
    simp only [hs, hok, if_true, hnext]
    rw [← hps, ih (k + 1) fuel' (acc ++ [bs k]) (by omega) (by omega)]
    have hfd : fuel' - d = fuel' + 1 - (d + 1) := by omega
    have hacc : (acc ++ [bs k]) ++ (List.range d).map (fun i => bs (k + 1 + i)) =
        acc ++ (List.range (d + 1)).map fun i => bs (k + i) := by
      rw [range_map_shift, List.append_assoc]
      rfl
    rw [hfd, hacc]
    refine congrArg₂ _ rfl ?_
    rw [range_map_shift ps k d]
    rfl

/-- C1: for every valid pair (`page ≥ 1`, `per_page ∈ [1,100]`) and every
mocked upstream serving a chain of `N` pages — each of the first `N-1`
responses advertising the next page through the `Link` header and the
`N`-th omitting it — `list_service_items` terminates successfully (given
fuel ≥ N), returns exactly the `N` per-page payloads in server order,
requests exactly the pages of the chain, and its final state carries no
next-page marker (the success dict has only `starting_page`, `per_page`
and `last_fetched_page`, and the loop exits only on an absent or falsy
`next`). -/
theorem list_service_items_full_chain {α : Type} (server : Int → Resp α)
    (page perPage : Int) (N : Nat) (ps : Nat → Int) (bs : Nat → α)
    (hN : 1 ≤ N) (hpage : 1 ≤ page) (hsize1 : 1 ≤ perPage) (hsize2 : perPage ≤ 100)
    (hps0 : ps 0 = page)
    (hchain : ∀ i, i + 1 < N → successAdvance server ps bs i)
    (hlast : ∃ st link, server (ps (N - 1)) = .response st (.ok (bs (N - 1))) link ∧
      statusOk st = true ∧ pagGet (parse_link_header link) "next" = none)
    (fuel : Nat) (hfuel : N ≤ fuel) :
    list_service_items server page perPage fuel =
      (some (.ok ((List.range N).map bs) page perPage (ps (N - 1))),
       (List.range N).map ps) := by
  obtain ⟨n, rfl⟩ : ∃ n, N = n + 1 := ⟨N - 1, by omega⟩
  simp only [Nat.add_sub_cancel] at hlast ⊢
  obtain ⟨st, link, hs, hok, hnone⟩ := hlast
  unfold list_service_items
  rw [if_neg (by omega), if_neg (by omega)]
  rw [show page = ps 0 from hps0.symm]
  rw [lsiLoop_steps server (ps 0) perPage ps bs n
    (fun i hi => hchain i (by omega)) n 0 fuel [] (by omega) (by omega)]
  obtain ⟨f', hf'⟩ : ∃ f, fuel - n = f + 1 := ⟨fuel - n - 1, by omega⟩
  rw [hf', lsiLoop]
  simp only [hs, hok, if_true, hnone]
  rw [List.nil_append, range_map_last bs n, range_map_last ps n]

/-- Witness for C1: a two-page chain (page 1 advertises page 2, page 2
omits the marker) aggregates both payloads in order. -/
theorem list_service_items_full_chain_witness :
    list_service_items
        (fun p => if p = 1 then Resp.response 200 (Except.ok (0 : Nat))
            "<http://x?page=2>; rel=\"next\""
          else Resp.response 200 (Except.ok 1) "") 1 30 2
      = (some (LsiResult.ok [0, 1] 1 30 2), [1, 2]) := by
  have h := list_service_items_full_chain
    (fun p => if p = 1 then Resp.response 200 (Except.ok (0 : Nat))
        "<http://x?page=2>; rel=\"next\""
      else Resp.response 200 (Except.ok 1) "") 1 30 2
    (fun i => Int.ofNat (i + 1)) (fun i => i)
    (by norm_num) (by norm_num) (by norm_num) (by norm_num) rfl
    (fun i hi => by
      have : i = 0 := by omega
      subst this
      exact ⟨200, "<http://x?page=2>; rel=\"next\"", 1, rfl, rfl, by decide, rfl⟩)
    ⟨200, "", rfl, rfl, by decide⟩ 2 (by norm_num)
  simpa [List.range_succ] using h

/-- C3: whole-aggregation failure.  Along any run whose pages
`ps 0, …, ps (j-1)` (with `j ≥ 1`) succeed and whose next fetch at
`ps j` fails — by a transport error or by a non-2xx response — the
aggregator returns only the error dict: the result is independent of the
payloads `bs` accumulated before the failure, which appear nowhere in
the returned value. -/
theorem list_service_items_midfail_discards {α : Type} (server : Int → Resp α)
    (page perPage : Int) (j : Nat) (ps : Nat → Int) (bs : Nat → α)
    (_hj : 1 ≤ j) (hpage : 1 ≤ page) (hsize1 : 1 ≤ perPage) (hsize2 : perPage ≤ 100)
    (hps0 : ps 0 = page)
    (hchain : ∀ i, i < j → successAdvance server ps bs i)
    (msg : String)
    (hfail : (∃ e, server (ps j) = .transportError e ∧
        msg = "Unexpected error: " ++ e) ∨
      (∃ st body link, server (ps j) = .response st body link ∧
        statusOk st = false ∧ msg = "HTTP error occurred: " ++ httpErrText st))
    (fuel : Nat) (hfuel : j + 1 ≤ fuel) :
    list_service_items server page perPage fuel =
      (some (.error msg), (List.range (j + 1)).map ps) := by
  unfold list_service_items
  rw [if_neg (by omega), if_neg (by omega)]
  rw [show page = ps 0 from hps0.symm]
  rw [lsiLoop_steps server (ps 0) perPage ps bs j hchain j 0 fuel [] (by omega)
    (by omega)]
  obtain ⟨f', hf'⟩ : ∃ f, fuel - j = f + 1 := ⟨fuel - j - 1, by omega⟩
  rw [hf', lsiLoop]
  rcases hfail with ⟨e, hs, rfl⟩ | ⟨st, body, link, hs, hst, rfl⟩
  · simp only [hs]
    rw [range_map_last ps j]
  · simp only [hs, hst, Bool.false_eq_true, if_false]
    rw [range_map_last ps j]

/-- Witness for C3: page 1 succeeds advertising page 2, page 2 answers
500; the result is the bare error dict and the trace is `[1, 2]`. -/
theorem list_service_items_midfail_discards_witness :
    list_service_items
        (fun p => if p = 1 then Resp.response 200 (Except.ok (0 : Nat))
            "<http://x?page=2>; rel=\"next\""
          else Resp.response 500 (Except.ok 9) "") 1 30 3
      = (some (.error ("HTTP error occurred: " ++ httpErrText 500)), [1, 2]) := by
  have h := list_service_items_midfail_discards
    (fun p => if p = 1 then Resp.response 200 (Except.ok (0 : Nat))
        "<http://x?page=2>; rel=\"next\""
      else Resp.response 500 (Except.ok 9) "") 1 30 1
    (fun i => Int.ofNat (i + 1)) (fun _ => 0)
    (by norm_num) (by norm_num) (by norm_num) (by norm_num) rfl
    (fun i hi => by
      have : i = 0 := by omega
      subst this
      exact ⟨200, "<http://x?page=2>; rel=\"next\"", 1, rfl, rfl, by decide, rfl⟩)
    ("HTTP error occurred: " ++ httpErrText 500)
    (Or.inr ⟨500, Except.ok 9, "", rfl, by decide, rfl⟩) 3 (by norm_num)
  simpa [List.range_succ] using h

/-! ## The trace advances only by server-provided markers -/

lemma lsiLoop_trace_cons {α : Type} (server : Int → Resp α) (sp pp : Int)
    (fuel : Nat) (cur : Int) (acc : List α) :
    ∃ t, (lsiLoop server sp pp (fuel + 1) cur acc).2 = cur :: t := by
  rw [lsiLoop]
  rcases hs : server cur with ⟨st, body, link⟩ | e
  · by_cases hok : statusOk st
    · rcases body with e | data
      · exact ⟨[], by simp [hok]⟩
      · rcases hn : pagGet (parse_link_header link) "next" with _ | n
        · exact ⟨[], by simp [hok, hn]⟩
        · rcases n with _ | n
          · exact ⟨[], by simp [hok, hn]⟩
          · exact ⟨(lsiLoop server sp pp fuel (Int.ofNat (n + 1)) (acc ++ [data])).2,
              by simp only [hok, if_true, hn]⟩
    · exact ⟨[], by simp [hok]⟩
  · exact ⟨[], by simp⟩

lemma lsiLoop_trace_chain {α : Type} (server : Int → Resp α) (sp pp : Int) :
    ∀ (fuel : Nat) (cur : Int) (acc : List α),
      List.Chain' (nextAdvance server) (lsiLoop server sp pp fuel cur acc).2 := by
  intro fuel
  induction fuel with
  | zero => intro cur acc; rw [lsiLoop]; exact List.chain'_nil
  | succ f ih =>
    intro cur acc
    rw [lsiLoop]
    rcases hs : server cur with ⟨st, body, link⟩ | e
    · by_cases hok : statusOk st
      · rcases body with e | data
        · simp [hok]
        · rcases hn : pagGet (parse_link_header link) "next" with _ | n
          · simp [hok, hn]
          · rcases n with _ | n
            · simp [hok, hn]
            · simp only [hok, if_true, hn]
              rw [List.chain'_cons']
              refine ⟨?_, ih _ _⟩
              intro y hy
              rcases f with _ | f
              · rw [lsiLoop] at hy; simp at hy
              · obtain ⟨t, ht⟩ := lsiLoop_trace_cons server sp pp f
                  (Int.ofNat (n + 1)) (acc ++ [data])
                rw [ht] at hy
                simp only [List.head?_cons, Option.mem_some_iff] at hy
                exact hy ▸ ⟨st, data, link, n, hs, hok, hn, rfl⟩
      · simp [hok]
    · simp

/-- C6 amended: the aggregator advances its cursor purely by assigning
the `next` marker parsed from each response's `Link` header (never by a
locally incremented counter): along every run, each consecutively
requested page is exactly the truthy `next` marker advertised by the
response to the previous request.  The original claim's stronger reading
— that no page is ever requested twice — is false (see the refetch
counterexample): nothing stops a server whose `next` marker points back
at an already-fetched page. -/
theorem list_service_items_advances_by_marker {α : Type}
    (server : Int → Resp α) (page perPage : Int) (fuel : Nat) :
    List.Chain' (nextAdvance server)
      (list_service_items server page perPage fuel).2 := by
  unfold list_service_items
  split_ifs
  · exact List.chain'_nil
  · exact List.chain'_nil
  · exact lsiLoop_trace_chain server page perPage fuel page []

/-! ## Reordering invariance of the header parser -/

lemma splitComma_ne_nil (s : List Char) : splitComma s ≠ [] := by
  cases s with
  | nil => simp [splitComma]
  | cons c rest =>
    rw [splitComma]
    split_ifs
    · simp
    · rcases h : splitComma rest with _ | ⟨p, ps⟩ <;> simp

lemma splitComma_append (xs ys : List Char) :
    splitComma (xs ++ ',' :: ys) = splitComma xs ++ splitComma ys := by
  induction xs with
  | nil => simp [splitComma]
  | cons c xs ih =>
    by_cases hc : c = ','
    · subst hc
      rw [List.cons_append, splitComma, if_pos rfl, ih, splitComma, if_pos rfl]
      rfl
    · rw [List.cons_append, splitComma, if_neg hc, ih, splitComma, if_neg hc]
      rcases h : splitComma xs with _ | ⟨p, ps⟩
      · exact absurd h (splitComma_ne_nil xs)
      · simp

lemma splitComma_no_comma (s : List Char) (h : ',' ∉ s) : splitComma s = [s] := by
  induction s with
  | nil => rfl
  | cons c rest ih =>
    have hc : c ≠ ',' := fun e => h (e ▸ List.mem_cons_self c rest)
    have hr : ',' ∉ rest := fun m => h (List.mem_cons_of_mem c m)
    rw [splitComma, if_neg hc, ih hr]

lemma splitComma_mem (s : List Char) :
    ∀ p ∈ splitComma s, ∀ c ∈ p, c ∈ s := by
  induction s with
  | nil =>
    intro p hp c hc
    simp [splitComma] at hp
    subst hp
    simp at hc
  | cons a rest ih =>
    intro p hp c hc
    by_cases ha : a = ','
    · subst ha
      rw [splitComma, if_pos rfl, List.mem_cons] at hp
      rcases hp with rfl | hp
      · simp at hc
      · exact List.mem_cons_of_mem _ (ih p hp c hc)
    · rw [splitComma, if_neg ha] at hp
      rcases hq : splitComma rest with _ | ⟨q, qs⟩
      · exact absurd hq (splitComma_ne_nil rest)
      · rw [hq, List.mem_cons] at hp
        rcases hp with rfl | hp
        · rw [List.mem_cons] at hc
          rcases hc with rfl | hc
          · exact List.mem_cons_self c rest
          · exact List.mem_cons_of_mem _
              (ih q (by rw [hq]; exact List.mem_cons_self q qs) c hc)
        · exact List.mem_cons_of_mem _
            (ih p (by rw [hq]; exact List.mem_cons_of_mem q hp) c hc)

lemma tryG1_none : ∀ (s : List Char), '>' ∉ s → ∀ acc, tryG1 acc s = none := by
  intro s
  induction s with
  | nil => intro _ acc; rfl
  | cons c rest ih =>
    intro h acc
    have hr : '>' ∉ rest := fun m => h (List.mem_cons_of_mem c m)
    rw [tryG1]
    · split_ifs with hnl
      · rfl
      · exact ih hr (acc ++ [c])
    · intro t heq
      exact hr (heq ▸ List.mem_cons_self '>' (';' :: t))

lemma searchLink_none_no_lt : ∀ (s : List Char), '<' ∉ s → searchLink s = none := by
  intro s
  induction s with
  | nil => intro _; rfl
  | cons c rest ih =>
    intro h
    have hc : c ≠ '<' := fun e => h (e ▸ List.mem_cons_self c rest)
    rw [searchLink, if_neg hc]
    exact ih fun m => h (List.mem_cons_of_mem c m)

lemma searchLink_none_no_gt : ∀ (s : List Char), '>' ∉ s → searchLink s = none := by
  intro s
  induction s with
  | nil => intro _; rfl
  | cons c rest ih =>
    intro h
    have hr : '>' ∉ rest := fun m => h (List.mem_cons_of_mem c m)
    rw [searchLink]
    split_ifs with hc
    · rw [tryG1_none rest hr []]
      exact ih hr
    · exact ih hr

lemma searchLink_spaces (pre : List Char) (hpre : ∀ c ∈ pre, c = ' ') (l : List Char) :
    searchLink (pre ++ l) = searchLink l := by
  induction pre with
  | nil => rfl
  | cons c pre ih =>
    have hc : c = ' ' := hpre c (List.mem_cons_self c pre)
    rw [List.cons_append, searchLink, if_neg (by rw [hc]; decide)]
    exact ih fun d hd => hpre d (List.mem_cons_of_mem c hd)

lemma tryG1_walk (t g2 : List Char) (ht : afterG1 t = some g2) :
    ∀ (u : List Char), u ≠ [] → (∀ c ∈ u, c ≠ '>' ∧ c ≠ '\n') →
      ∀ acc, tryG1 acc (u ++ '>' :: ';' :: t) = some (acc ++ u, g2) := by
  intro u
  induction u with
  | nil => intro h; exact absurd rfl h
  | cons c u' ih =>
    intro _ hu acc
    have hc := hu c (List.mem_cons_self c u')
    cases u' with
    | nil =>
      simp only [List.cons_append, List.nil_append]
      rw [tryG1, if_neg hc.2, ht]
    | cons c' u'' =>
      have hc' : c' ≠ '>' := (hu c' (by simp)).1
      simp only [List.cons_append]
      rw [tryG1]
      · rw [if_neg hc.2, ← List.cons_append,
          ih (by simp) (fun d hd => hu d (List.mem_cons_of_mem c hd)) (acc ++ [c])]
        simp
      · intro t' heq
        injection heq with e1 _
        exact absurd e1 hc'

lemma linkEntry_shape (u : List Char) (r : String) :
    linkEntry u r = '<' :: (u ++ '>' :: ';' ::
      (' ' :: 'r' :: 'e' :: 'l' :: '=' :: '"' :: (r.toList ++ ['"']))) := by
  simp [linkEntry]

lemma searchLink_entry (u : List Char)
    (hu : ∀ c ∈ u, c ≠ '<' ∧ c ≠ '>' ∧ c ≠ '\n') (hne : u ≠ []) (r : String)
    (hr : afterG1 (' ' :: 'r' :: 'e' :: 'l' :: '=' :: '"' :: (r.toList ++ ['"'])) =
      some r.toList) :
    searchLink (linkEntry u r) = some (u, r.toList) := by
  rw [linkEntry_shape, searchLink, if_pos rfl,
    tryG1_walk _ _ hr u hne (fun c hc => ⟨(hu c hc).2.1, (hu c hc).2.2⟩) []]
  simp

lemma linkStep_of_none (pag : List (String × Option Nat)) (p : List Char)
    (h : searchLink p = none) : linkStep pag p = pag := by
  simp [linkStep, h]

lemma foldl_linkStep_none (ls : List (List Char))
    (h : ∀ p ∈ ls, searchLink p = none) :
    ∀ pag, ls.foldl linkStep pag = pag := by
  induction ls with
  | nil => intro pag; rfl
  | cons p ps ih =>
    intro pag
    rw [List.foldl_cons, linkStep_of_none pag p (h p (List.mem_cons_self p ps))]
    exact ih (fun q hq => h q (List.mem_cons_of_mem p hq)) pag

lemma string_mk_toList (s : String) : String.mk s.toList = s := rfl

lemma entry_fold (pre u : List Char) (r : String)
    (hpre : ∀ c ∈ pre, c = ' ')
    (hu : ∀ c ∈ u, c ≠ '<' ∧ c ≠ '>' ∧ c ≠ '\n') (hne : u ≠ [])
    (hr1 : afterG1 (' ' :: 'r' :: 'e' :: 'l' :: '=' :: '"' :: (r.toList ++ ['"'])) =
      some r.toList)
    (hr2 : ',' ∉ r.toList) (hr3 : '<' ∉ r.toList)
    (pag : List (String × Option Nat)) :
    (splitComma (pre ++ linkEntry u r)).foldl linkStep pag = updOpt pag r (optMark u) := by
  by_cases hcom : ',' ∈ u
  · obtain ⟨u1, u2, rfl⟩ := List.append_of_mem hcom
    have hshape : pre ++ linkEntry (u1 ++ ',' :: u2) r =
        (pre ++ '<' :: u1) ++ ',' :: (u2 ++ '>' :: ';' ::
          (' ' :: 'r' :: 'e' :: 'l' :: '=' :: '"' :: (r.toList ++ ['"']))) := by
      simp [linkEntry]
    rw [hshape, splitComma_append, List.foldl_append]
    have hgt : ∀ p ∈ splitComma (pre ++ '<' :: u1), searchLink p = none := by
      intro p hp
      refine searchLink_none_no_gt p fun hmem => ?_
      have := splitComma_mem _ p hp '>' hmem
      rcases List.mem_append.mp this with h | h
      · exact absurd (hpre '>' h) (by decide)
      · rcases List.mem_cons.mp h with h | h
        · exact absurd h (by decide)
        · exact (hu '>' (List.mem_append_left _ h)).2.1 rfl
    have hlt : ∀ p ∈ splitComma (u2 ++ '>' :: ';' ::
        (' ' :: 'r' :: 'e' :: 'l' :: '=' :: '"' :: (r.toList ++ ['"']))),
        searchLink p = none := by
      intro p hp
      refine searchLink_none_no_lt p fun hmem => ?_
      have := splitComma_mem _ p hp '<' hmem
      rcases List.mem_append.mp this with h | h
      · exact (hu '<' (List.mem_append_right _ (List.mem_cons_of_mem _ h))).1 rfl
      · have h2 : '<' ∈ r.toList := by simpa using h
        exact hr3 h2
    rw [foldl_linkStep_none _ hgt pag, foldl_linkStep_none _ hlt pag]
    have : optMark (u1 ++ ',' :: u2) = none := by
      unfold optMark
      rw [if_pos hcom]
    rw [this]
    rfl
  · have hnc : ',' ∉ pre ++ linkEntry u r := by
      intro hmem
      rcases List.mem_append.mp hmem with h | h
      · exact absurd (hpre ',' h) (by decide)
      · rw [linkEntry_shape] at h
        rcases List.mem_cons.mp h with h | h
        · exact absurd h (by decide)
        · rcases List.mem_append.mp h with h | h
          · exact hcom h
          · have h2 : ',' ∈ r.toList := by simpa using h
            exact hr2 h2
    rw [splitComma_no_comma _ hnc, List.foldl_cons, List.foldl_nil]
    unfold linkStep
    rw [searchLink_spaces pre hpre, searchLink_entry u hu hne r hr1]
    unfold updOpt optMark
    rw [if_neg hcom]
    rcases hp : pageSearch u with _ | n <;> simp only [hp] <;> rfl

lemma parse_twoEntry (ua ub : List Char) (ra rb : String)
    (ha : ∀ c ∈ ua, c ≠ '<' ∧ c ≠ '>' ∧ c ≠ '\n') (hnea : ua ≠ [])
    (hb : ∀ c ∈ ub, c ≠ '<' ∧ c ≠ '>' ∧ c ≠ '\n') (hneb : ub ≠ [])
    (hra1 : afterG1 (' ' :: 'r' :: 'e' :: 'l' :: '=' :: '"' :: (ra.toList ++ ['"'])) =
      some ra.toList)
    (hra2 : ',' ∉ ra.toList) (hra3 : '<' ∉ ra.toList)
    (hrb1 : afterG1 (' ' :: 'r' :: 'e' :: 'l' :: '=' :: '"' :: (rb.toList ++ ['"'])) =
      some rb.toList)
    (hrb2 : ',' ∉ rb.toList) (hrb3 : '<' ∉ rb.toList) :
    parse_link_header (twoEntryHeader ua ra ub rb) =
      updOpt (updOpt initPag ra (optMark ua)) rb (optMark ub) := by
  unfold parse_link_header twoEntryHeader parseLinkCore
  rw [if_neg (by rw [linkEntry_shape]; simp)]
  have hsplit : splitComma ((String.mk (linkEntry ua ra ++ ',' :: ' ' :: linkEntry ub rb)).toList)
      = splitComma (linkEntry ua ra) ++ splitComma (' ' :: linkEntry ub rb) :=
    splitComma_append (linkEntry ua ra) (' ' :: linkEntry ub rb)
  rw [hsplit, List.foldl_append]
  have h1 := entry_fold [] ua ra (by simp) ha hnea hra1 hra2 hra3 initPag
  rw [List.nil_append] at h1
  have h2 := entry_fold [' '] ub rb (by simp) hb hneb hrb1 hrb2 hrb3
    (updOpt initPag ra (optMark ua))
  rw [List.singleton_append] at h2
  rw [h1, h2]

/-- C9: reordering invariance of the two-relation header.  For all URLs
`u1`, `u2` — formalised as nonempty character strings containing none of
the delimiter characters `<`, `>` or a newline, which cannot occur
unencoded in a URL — parsing `<u1>; rel="next", <u2>; rel="prev"` and
parsing `<u2>; rel="prev", <u1>; rel="next"` yield identical results:
each entry only ever touches its own relation's key, so the two updates
commute on the initial `next`/`prev` dict. -/
theorem parse_link_header_reorder_invariant (u1 u2 : List Char)
    (h1 : ∀ c ∈ u1, c ≠ '<' ∧ c ≠ '>' ∧ c ≠ '\n') (hne1 : u1 ≠ [])
    (h2 : ∀ c ∈ u2, c ≠ '<' ∧ c ≠ '>' ∧ c ≠ '\n') (hne2 : u2 ≠ []) :
    parse_link_header (twoEntryHeader u1 "next" u2 "prev") =
      parse_link_header (twoEntryHeader u2 "prev" u1 "next") := by
  rw [parse_twoEntry u1 u2 "next" "prev" h1 hne1 h2 hne2
      (by decide) (by decide) (by decide) (by decide) (by decide) (by decide),
    parse_twoEntry u2 u1 "prev" "next" h2 hne2 h1 hne1
      (by decide) (by decide) (by decide) (by decide) (by decide) (by decide)]
  cases optMark u1 <;> cases optMark u2 <;> rfl

/-- Witness for C9 at two concrete URLs. -/
theorem parse_link_header_reorder_invariant_witness :
    parse_link_header
        (twoEntryHeader "http://a?page=1".toList "next" "http://b?page=2".toList "prev") =
      parse_link_header
        (twoEntryHeader "http://b?page=2".toList "prev" "http://a?page=1".toList "next") :=
  parse_link_header_reorder_invariant _ _ (by decide) (by decide) (by decide) (by decide)
